import Mathlib

/-!
Verification of fftool (fftool.py): a shallow embedding of the pure
fragments of the source, with theorems checking the design document's
claims about them.

Modelling conventions:
* Python floats are modelled as `ℚ` (the float literals appearing in the
  source, such as 0.25 and 15.0, are exact in `ℚ`).
* Python ints are modelled as `ℤ` where the source can produce negative
  values (atom indices in bonded terms, `ityp` sentinels), `ℕ` for loop
  counters.
* `math.sqrt` is abstracted as a parameter `sqrtQ : ℚ → ℚ`, since the
  source only ever feeds its result straight into a parameter list.
* The geometry routines `dist2atoms` / `angle3atoms` are abstracted as
  observation functions `dist` / `theta` supplied to the matcher: the
  matcher only ever consumes the observed scalar value of a term.
* Printed warnings are modelled as counters or collected name lists,
  `sys.exit(1)` as `Except.error`.
-/

namespace Fftool

/-- The static element-weight table `atomic_wt` (source lines 29-34),
as an association list. -/
def atomic_wt : List (String × ℚ) :=
  [("H", 1.008), ("Li", 6.941), ("B", 10.811), ("C", 12.011),
   ("N", 14.006), ("O", 15.999), ("F", 18.998), ("Ne", 20.180),
   ("Na", 22.990), ("Mg", 24.305), ("Al", 26.982), ("Si", 28.086),
   ("P", 30.974), ("S", 32.065), ("Cl", 35.453), ("Ar", 39.948),
   ("K", 39.098), ("Ca", 40.078), ("Fe", 55.845), ("Zn", 65.38),
   ("Br", 79.904), ("Mo", 95.96), ("I", 126.904)]

/-- Dictionary lookup `atomic_wt[key]` guarded by `key in atomic_wt`. -/
def wtLookup (s : String) : Option ℚ :=
  (atomic_wt.find? (fun pr => pr.1 == s)).map (fun pr => pr.2)

/-- Source `atomic_weight(name)` (lines 36-43): try the two-character key
`name[:2]`, then the one-character key `name[0]`; otherwise print a
warning and return 0.0.  Total: it never aborts. -/
def atomic_weight (name : String) : ℚ :=
  match wtLookup (name.take 2) with
  | some w => w
  | none =>
    match wtLookup (name.take 1) with
    | some w => w
    | none => 0

/-- An atom of a molecule (class `atom`, lines 121-146).  The fields
`type`, `q`, `pot`, `par` are absent in Python until `setpar` runs; here
they carry inert defaults and are only ever read after assignment. -/
structure MolAtom where
  name : String
  m : ℚ
  ityp : ℤ
  type : String
  q : ℚ
  pot : String
  par : List ℚ
  x : ℚ
  y : ℚ
  z : ℚ
deriving DecidableEq

/-- Source `atom.__init__(name, m=0.0)` (lines 124-133): when the explicit mass
is 0.0 the mass defaults from `atomic_weight`. -/
def atomMk (name : String) (m : ℚ) : MolAtom :=
  { name := name
    m := if m = 0 then atomic_weight name else m
    ityp := -1, type := "", q := 0, pot := "", par := []
    x := 0, y := 0, z := 0 }

/-- A force-field atom record (one line of the `ATOMS` section,
lines 1039-1048). -/
structure FFAtom where
  name : String
  type : String
  m : ℚ
  q : ℚ
  pot : String
  par : List ℚ
deriving DecidableEq

/-- A force-field bond record (class `bond` as used in the database,
lines 188-234).  `eqval` is the equilibrium value assigned by
`bond.seteqval` when the force field is loaded (lines 1091-1092). -/
structure FFBond where
  iatp : String
  jatp : String
  pot : String
  par : List ℚ
  eqval : ℚ
deriving DecidableEq

/-- Source `bond.seteqval` (lines 214-224): potentials `harm` and `cons` take
`par[0]` as equilibrium value; any other kind is a fatal error
(`none`). -/
def FFBond.seteqval (b : FFBond) : Option ℚ :=
  if b.pot = "harm" then some (b.par.getD 0 0)
  else if b.pot = "cons" then some (b.par.getD 0 0)
  else none

/-- Source `bond.checkval(r)` (lines 226-234): `abs(r - eqval) < 0.25`. -/
def FFBond.checkval (b : FFBond) (r : ℚ) : Bool :=
  decide (|r - b.eqval| < 1/4)

/-- A force-field angle record (class `angle`, lines 237-286). -/
structure FFAngle where
  iatp : String
  jatp : String
  katp : String
  pot : String
  par : List ℚ
  eqval : ℚ
deriving DecidableEq

/-- Source `angle.seteqval` (lines 266-276). -/
def FFAngle.seteqval (a : FFAngle) : Option ℚ :=
  if a.pot = "harm" then some (a.par.getD 0 0)
  else if a.pot = "cons" then some (a.par.getD 0 0)
  else none

/-- Source `angle.checkval(th)` (lines 278-286): `abs(th - eqval) < 15.0`. -/
def FFAngle.checkval (a : FFAngle) (th : ℚ) : Bool :=
  decide (|th - a.eqval| < 15)

/-- A force-field dihedral record; class `dimpr` (improper) has exactly
the same fields (lines 289-337), so both sections share this record. -/
structure FFDihed where
  iatp : String
  jatp : String
  katp : String
  latp : String
  pot : String
  par : List ℚ
deriving DecidableEq

/-- A bond held by a molecule: two atom indices (class `bond`,
constructor `bond(i=-1, j=-1, ...)`, lines 191-195). -/
structure MolBond where
  i : ℤ
  j : ℤ
deriving DecidableEq

def MolBond.dflt : MolBond := ⟨-1, -1⟩

/-- An angle held by a molecule: three atom indices (lines 240-245). -/
structure MolAngle where
  i : ℤ
  j : ℤ
  k : ℤ
deriving DecidableEq

/-- A dihedral or improper held by a molecule: four atom indices
(lines 292-298). -/
structure MolDihed where
  i : ℤ
  j : ℤ
  k : ℤ
  l : ℤ
deriving DecidableEq

/-! Section: The matcher's inner database loop

Every section of `mol.setff` runs the same inner loop over one list of
database records: on each record matching the term's name it overwrites
the term's parameters (`setpar`), prints a duplicate warning when a
match had already been found, and (bonds/angles only) evaluates
`checkval` against the observed geometry, printing a warning (bonds) or
latching a removal flag (angles) on failure.  `scanLoop` is that loop:
it returns the record that ends up assigned (the last match), the
number of duplicate warnings printed, and the number of matching
records whose `checkval` failed. -/

def scanStep {α : Type} (p chk : α → Bool) (acc : Option α × ℕ × ℕ) (x : α) :
    Option α × ℕ × ℕ :=
  if p x then
    (some x,
     (if acc.1.isSome then acc.2.1 + 1 else acc.2.1),
     (if chk x then acc.2.2 else acc.2.2 + 1))
  else acc

def scanLoop {α : Type} (p chk : α → Bool) (l : List α) : Option α × ℕ × ℕ :=
  l.foldl (scanStep p chk) (none, 0, 0)

/-- Source `optOr a b` keeps `a` when it is `some`, else `b`. -/
def optOr {α : Type} (a b : Option α) : Option α :=
  match a with
  | some x => some x
  | none => b

/-! Section: `mol.setff`: matching terms against the database (lines 813-951)

`atype` abstracts the lookup `self.atom[idx].type` (the force-field type
label of the atom at a given index), `dist bd` the observed length
`dist2atoms(...)` of a bond and `theta an` the observed value
`angle3atoms(...)` of an angle. -/

/-- The derived name of an atom match: atoms match by exact name
(line 828). -/
def atomMatch (nm : String) (f : FFAtom) : Bool := nm == f.name

/-- The inner loop of the atom section (lines 825-834). -/
def atomScan (ffatoms : List FFAtom) (nm : String) : Option FFAtom × ℕ × ℕ :=
  scanLoop (atomMatch nm) (fun _ => true) ffatoms

/-- Source `at.setpar(ffat.type, ffat.q, ffat.pot, ffat.par)` plus
`at.m = ffat.m` applied with the record the loop ends on (line 832-833);
identity when no record matched (the caller then aborts). -/
def setffAtomPar (ffatoms : List FFAtom) (a : MolAtom) : MolAtom :=
  match (atomScan ffatoms a.name).1 with
  | some f => { a with type := f.type, q := f.q, pot := f.pot, par := f.par, m := f.m }
  | none => a

/-- Bond name `'%s-%s' % (self.atom[bd.i].type, self.atom[bd.j].type)`
(line 844). -/
def bondNm (atype : ℤ → String) (bd : MolBond) : String :=
  atype bd.i ++ "-" ++ atype bd.j

/-- A bond matches a database record in either atom order
(lines 848-850). -/
def bondMatch (nm : String) (f : FFBond) : Bool :=
  nm == f.iatp ++ "-" ++ f.jatp || nm == f.jatp ++ "-" ++ f.iatp

/-- The inner loop of the bond section (lines 847-858), with `checkval`
run on the observed bond length. -/
def bondScan (atype : ℤ → String) (dist : MolBond → ℚ) (ffbonds : List FFBond)
    (bd : MolBond) : Option FFBond × ℕ × ℕ :=
  scanLoop (bondMatch (bondNm atype bd)) (fun f => f.checkval (dist bd)) ffbonds

/-- The bond section of `mol.setff` (lines 842-864).  Every bond is
kept (a failed `checkval` only prints a warning, counted here); a bond
with no matching record sets the error flag and after the loop the
whole run aborts (`sys.exit(1)`), so the result is
`(matched pairs, total geometry warnings)` or a fatal error. -/
def setffBonds (atype : ℤ → String) (dist : MolBond → ℚ) (ffbonds : List FFBond)
    (bonds : List MolBond) : Except Unit (List (MolBond × FFBond) × ℕ) :=
  let scans := bonds.map (fun bd => (bd, bondScan atype dist ffbonds bd))
  if scans.any (fun pr => pr.2.1.isNone) then Except.error ()
  else
    Except.ok
      (scans.filterMap (fun pr => pr.2.1.map (fun f => (pr.1, f))),
       (scans.map (fun pr => pr.2.2.2)).sum)

/-- Angle name (lines 873-874). -/
def angleNm (atype : ℤ → String) (an : MolAngle) : String :=
  atype an.i ++ "-" ++ atype an.j ++ "-" ++ atype an.k

/-- An angle matches a record in either direction (lines 880-882). -/
def angleMatch (nm : String) (f : FFAngle) : Bool :=
  nm == f.iatp ++ "-" ++ f.jatp ++ "-" ++ f.katp
    || nm == f.katp ++ "-" ++ f.jatp ++ "-" ++ f.iatp

/-- The inner loop of the angle section (lines 879-890). -/
def angleScan (atype : ℤ → String) (theta : MolAngle → ℚ) (ffangles : List FFAngle)
    (an : MolAngle) : Option FFAngle × ℕ × ℕ :=
  scanLoop (angleMatch (angleNm atype an)) (fun f => f.checkval (theta an)) ffangles

/-- Dihedral / improper name (lines 901-903 and 923-925). -/
def dihedNm (atype : ℤ → String) (dh : MolDihed) : String :=
  atype dh.i ++ "-" ++ atype dh.j ++ "-" ++ atype dh.k ++ "-" ++ atype dh.l

/-- A dihedral (or improper) matches a record in either direction
(lines 906-910, 928-932). -/
def dihedMatch (nm : String) (f : FFDihed) : Bool :=
  nm == f.iatp ++ "-" ++ f.jatp ++ "-" ++ f.katp ++ "-" ++ f.latp
    || nm == f.latp ++ "-" ++ f.katp ++ "-" ++ f.jatp ++ "-" ++ f.iatp

/-- The inner loop of the dihedral / improper sections (lines 905-916,
927-938): no geometry check. -/
def dihedScan (atype : ℤ → String) (ffdiheds : List FFDihed) (dh : MolDihed) :
    Option FFDihed × ℕ × ℕ :=
  scanLoop (dihedMatch (dihedNm atype dh)) (fun _ => true) ffdiheds

/-- Source `if an.name not in anmiss: anmiss.append(an.name)` (lines 897-898,
919-920, 941-942): append keeping the first occurrence only. -/
def dedupAppend (acc : List String) (x : String) : List String :=
  if x ∈ acc then acc else acc ++ [x]

/-- The name list accumulated by the missing-term bookkeeping over a
whole section: distinct names in first-occurrence order. -/
def dedupKeepFirst (l : List String) : List String :=
  l.foldl dedupAppend []

/-- One angle/dihedral/improper section of `mol.setff` (lines 866-951):
the molecule's term list is traversed on a snapshot (`list(self.angle)`),
a term is retained exactly when a record matched and no matching record
failed the geometry check, removed otherwise; names of terms with no
match at all are collected into the per-molecule missing list, ignoring
names already recorded.  The missing lists are printed in one batch
after all three sections are done (lines 944-951). -/
def setffTerms {α β : Type} (nm : α → String) (scanf : α → Option β × ℕ × ℕ)
    (terms : List α) : List (α × β) × List String :=
  let scans := terms.map (fun t => (t, scanf t))
  (scans.filterMap (fun pr =>
      match pr.2.1 with
      | some f => if pr.2.2.2 = 0 then some (pr.1, f) else none
      | none => none),
   dedupKeepFirst (scans.filterMap (fun pr =>
      if pr.2.1.isNone then some (nm pr.1) else none)))

/-- The angle section: geometry failure (any matching record failing
`checkval`) removes the angle (lines 872-898). -/
def setffAngles (atype : ℤ → String) (theta : MolAngle → ℚ) (ffangles : List FFAngle)
    (angles : List MolAngle) : List (MolAngle × FFAngle) × List String :=
  setffTerms (angleNm atype) (angleScan atype theta ffangles) angles

/-- The dihedral section (lines 900-920). -/
def setffDiheds (atype : ℤ → String) (ffdiheds : List FFDihed)
    (diheds : List MolDihed) : List (MolDihed × FFDihed) × List String :=
  setffTerms (dihedNm atype) (dihedScan atype ffdiheds) diheds

/-- The improper section (lines 922-942); `dimpr` records have the same
shape as dihedral records. -/
def setffDimprs (atype : ℤ → String) (ffdimprs : List FFDihed)
    (dimprs : List MolDihed) : List (MolDihed × FFDihed) × List String :=
  setffTerms (dihedNm atype) (dihedScan atype ffdimprs) dimprs

/-! Section: `vdw.__init__` (lines 1109-1139) and `cell.__init__` (lines 1148-1160) -/

/-- An atom type as seen by the vdw constructor: the fields of the
force-field atom record it reads (`name`, `ityp`, `pot`, `par`). -/
structure AtType where
  name : String
  ityp : ℤ
  pot : String
  par : List ℚ
deriving DecidableEq

/-- A van der Waals pair record.  In the source `self.par` is assigned
only inside the `lj` branch, so for other potential kinds the attribute
is absent: modelled as `none`. -/
structure VdW where
  i : String
  j : String
  ityp : ℤ
  jtyp : ℤ
  pot : String
  par : Option (List ℚ)
deriving DecidableEq

/-- Source `vdw.__init__(iat, jat, mix)` (lines 1112-1139).  `sqrtQ` stands for
`math.sqrt`.  Mismatched potential kinds or parameter-list lengths are
fatal (`sys.exit(1)`).  In the `lj` branch, same-name pairs copy
`iat.par` verbatim; different-name pairs build a fresh two-entry list:
entry 0 is the geometric mean of the two first parameters when
`mix == 'g'` and the arithmetic mean otherwise, entry 1 is always the
geometric mean of the two second parameters. -/
def vdwMk (sqrtQ : ℚ → ℚ) (iat jat : AtType) (mix : String) : Except Unit VdW :=
  if iat.pot ≠ jat.pot then Except.error ()
  else if iat.par.length ≠ jat.par.length then Except.error ()
  else Except.ok
    { i := iat.name, j := jat.name, ityp := iat.ityp, jtyp := jat.ityp
      pot := iat.pot
      par :=
        if iat.pot = "lj" then
          some (if iat.name = jat.name then iat.par
            else
              [(if mix = "g" then sqrtQ (iat.par.getD 0 0 * jat.par.getD 0 0)
                else (iat.par.getD 0 0 + jat.par.getD 0 0) / 2),
               sqrtQ (iat.par.getD 1 0 * jat.par.getD 1 0)])
        else none }

/-- The simulation cell (class `cell`, lines 1148-1163). -/
structure Cell where
  a : ℚ
  b : ℚ
  c : ℚ
  pbc : String
  tol : ℚ
  center : Bool
deriving DecidableEq

/-- Source `cell.__init__(a, b, c, pbc='', tol=0.0, center=False)`
(lines 1151-1160): with a non-empty (truthy) periodicity string the
stored tolerance is forced to 0.0, otherwise the caller's value is
kept. -/
def cellMk (a b c : ℚ) (pbc : String) (tol : ℚ) (center : Bool) : Cell :=
  { a := a, b := b, c := c, pbc := pbc
    tol := if pbc ≠ "" then 0 else tol
    center := center }

/-! Section: `system` type aggregation (lines 1169-1227) -/

/-- An atom or bonded term as seen by the aggregator, which only reads
and writes the `name` and `ityp` fields. -/
structure Term where
  name : String
  ityp : ℤ
deriving DecidableEq

/-- Source `system.build_type_list(term, termtype)` (lines 1210-1218): append a
term to the type table unless a table entry with exactly equal `name`
string already exists. -/
def build_type_list (term : List Term) (termtype : List Term) : List Term :=
  term.foldl
    (fun tt a => if tt.any (fun b => a.name == b.name) then tt else tt ++ [a])
    termtype

/-- The first table index whose entry has equal name, mirroring the
search-with-break inside `assign_type_index` (lines 1223-1227). -/
def find_type_index (nm : String) : List Term → Option ℕ
  | [] => none
  | b :: ts => if nm = b.name then some 0 else (find_type_index nm ts).map (fun i => i + 1)

/-- Source `system.assign_type_index` for one term (lines 1220-1227):
`a.ityp` becomes the zero-based index of the first type-table entry
with equal name; a term whose name is absent is left untouched. -/
def assign_type_index (termtype : List Term) (a : Term) : Term :=
  match find_type_index a.name termtype with
  | some i => { a with ityp := (i : ℤ) }
  | none => a

/-- One category's type table is built by folding `build_type_list`
over the species in order (lines 1184-1189). -/
def system_type_list (specs : List (List Term)) : List Term :=
  specs.foldl (fun tt sp => build_type_list sp tt) []

/-! Section: Bonds declared by input files (`mol.fromzmat`, lines 518-540)
and inferred from distances (`mol.connectivity`, lines 727-755) -/

/-- One z-matrix record (lines 374-403): a name, three 1-based
reference-atom indices (0 when absent) and the bond length, angle and
dihedral values, after symbolic variables are substituted.  The
source's `id` field is called `idd` here. -/
structure ZAtom where
  name : String
  ir : ℤ
  r : ℚ
  ia : ℤ
  a : ℚ
  idd : ℤ
  d : ℚ
deriving DecidableEq

def ZAtom.dflt : ZAtom := ⟨"", 0, 0, 0, 0, 0, 0⟩

/-- The sequential z-matrix bonds (lines 529-530):
`for i in range(1, len(z.zatom)): bond(i, z.zatom[i]['ir'] - 1)` — the
new atom's index comes first and the 0-based reference index second. -/
def fromzmatSeqBonds (zatom : List ZAtom) : List MolBond :=
  (List.range' 1 (zatom.length - 1)).map
    (fun (i : ℕ) => ⟨(i : ℤ), (zatom.getD i ZAtom.dflt).ir - 1⟩)

/-- Explicit `connect` records (lines 531-532): converted to 0-based
and taken verbatim, with no range validation. -/
def connectBonds (connect : List (ℤ × ℤ)) : List MolBond :=
  connect.map (fun cn => ⟨cn.1 - 1, cn.2 - 1⟩)

/-- All bonds a z-matrix file declares when `reconnect` is not
requested (lines 527-533). -/
def fromzmatBonds (zatom : List ZAtom) (connect : List (ℤ × ℤ)) : List MolBond :=
  fromzmatSeqBonds zatom ++ connectBonds connect

/-- Source `mol.connectivity` bond inference (lines 745-755): an O(n²) scan
over ordered pairs `i < j`; a bond `(i, j)` is appended once per
matching database record whose `checkval` accepts the observed
distance.  `atypes` lists the atoms' force-field type labels (set in
lines 732-743) and `dist i j` abstracts `dist2atoms` with its optional
periodic-image correction. -/
def connectivityBonds (atypes : List String) (ffbonds : List FFBond)
    (dist : ℕ → ℕ → ℚ) : List MolBond :=
  (List.range (atypes.length - 1)).flatMap (fun i =>
    (List.range' (i + 1) (atypes.length - (i + 1))).flatMap (fun j =>
      ffbonds.flatMap (fun ffbd =>
        if (bondMatch (atypes.getD i "" ++ "-" ++ atypes.getD j "") ffbd
              && ffbd.checkval (dist i j)) = true
        then [⟨(i : ℤ), (j : ℤ)⟩] else [])))

/-! Section: `mol.anglesdiheds` (lines 757-811)

The enumeration is transcribed loop by loop; each Python loop level
becomes one named function so that the chain-molecule proofs can reason
about a level at a time. -/

/-- The neighbour list of atom `i` collected from the bond list in
bond-list order (lines 764-773). -/
def neighbors (i : ℤ) (bonds : List MolBond) : List ℤ :=
  bonds.filterMap (fun bd =>
    if i = bd.i then some bd.j else if i = bd.j then some bd.i else none)

/-- All ordered pairs `(neib[k], neib[l])` with `k < l`, in the order
of the double loop of lines 774-776. -/
def pairsOf {α : Type} : List α → List (α × α)
  | [] => []
  | x :: xs => xs.map (fun y => (x, y)) ++ pairsOf xs

/-- The angles contributed by atom `i`: one `(neib[k], i, neib[l])` per
unordered neighbour pair (lines 774-776). -/
def anglesFor (bonds : List MolBond) (i : ℕ) : List MolAngle :=
  (pairsOf (neighbors (i : ℤ) bonds)).map (fun pr => ⟨pr.1, (i : ℤ), pr.2⟩)

/-- Valence-angle enumeration over all atoms (lines 763-776). -/
def anglesFrom (natom : ℕ) (bonds : List MolBond) : List MolAngle :=
  (List.range natom).flatMap (anglesFor bonds)

/-- Source `bonds[k]` as indexed by the dihedral loops; indices produced by
the loops are always in range, so the default is never read. -/
def bondAt (bonds : List MolBond) (k : ℕ) : MolBond :=
  bonds.getD k MolBond.dflt

/-- Innermost dihedral loop body for the branch
`bond[k].i == bond[l].i` (lines 784-796). -/
def dihedInner1 (bonds : List MolBond) (k l j : ℕ) : List MolDihed :=
  if j = k ∨ j = l then []
  else if (bondAt bonds k).j = (bondAt bonds j).i then
    [⟨(bondAt bonds l).j, (bondAt bonds k).i, (bondAt bonds k).j, (bondAt bonds j).j⟩]
  else if (bondAt bonds k).j = (bondAt bonds j).j then
    [⟨(bondAt bonds l).j, (bondAt bonds k).i, (bondAt bonds k).j, (bondAt bonds j).i⟩]
  else []

/-- Innermost dihedral loop body for the branch
`bond[k].i == bond[l].j` (lines 797-810). -/
def dihedInner2 (bonds : List MolBond) (k l j : ℕ) : List MolDihed :=
  if j = k ∨ j = l then []
  else if (bondAt bonds k).j = (bondAt bonds j).i then
    [⟨(bondAt bonds l).i, (bondAt bonds k).i, (bondAt bonds k).j, (bondAt bonds j).j⟩]
  else if (bondAt bonds k).j = (bondAt bonds j).j then
    [⟨(bondAt bonds l).i, (bondAt bonds k).i, (bondAt bonds k).j, (bondAt bonds j).i⟩]
  else []

/-- Middle dihedral loop body: dispatch on how bonds `k` and `l` share
an endpoint (lines 780-810). -/
def dihedMid (bonds : List MolBond) (k l : ℕ) : List MolDihed :=
  if k = l then []
  else if (bondAt bonds k).i = (bondAt bonds l).i then
    (List.range bonds.length).flatMap (dihedInner1 bonds k l)
  else if (bondAt bonds k).i = (bondAt bonds l).j then
    (List.range bonds.length).flatMap (dihedInner2 bonds k l)
  else []

/-- Outer dihedral loop body (lines 779-810). -/
def dihedK (bonds : List MolBond) (k : ℕ) : List MolDihed :=
  (List.range bonds.length).flatMap (dihedMid bonds k)

/-- Dihedral enumeration (lines 778-811). -/
def dihedsFrom (bonds : List MolBond) : List MolDihed :=
  (List.range bonds.length).flatMap (dihedK bonds)

/-- A linear chain of `n` atoms: exactly the `n - 1` bonds joining
consecutive atoms. -/
def chainBonds (n : ℕ) : List MolBond :=
  (List.range (n - 1)).map (fun (k : ℕ) => ⟨(k : ℤ), (k : ℤ) + 1⟩)

/-! Section: Lemmas and claim theorems -/

lemma optOr_none {α : Type} (a : Option α) : optOr a none = a := by
  cases a <;> rfl

lemma optOr_some_right {α : Type} (a s : Option α) (x : α) :
    optOr (optOr a (some x)) s = optOr a (some x) := by
  cases a <;> rfl

lemma getLast?_cons_eq {α : Type} (x : α) (l : List α) :
    (x :: l).getLast? = optOr l.getLast? (some x) := by
  cases h : l.getLast? with
  | none =>
    cases l with
    | nil => rfl
    | cons y ys => simp at h
  | some z =>
    cases l with
    | nil => simp at h
    | cons y ys => simp [List.getLast?_cons_cons, h, optOr]

lemma scanLoop_go {α : Type} (p chk : α → Bool) (l : List α) :
    ∀ (s : Option α) (d g : ℕ),
      l.foldl (scanStep p chk) (s, d, g)
        = (optOr (l.filter p).getLast? s,
           d + (if s.isSome then l.countP p else l.countP p - 1),
           g + l.countP (fun x => p x && !chk x)) := by
  induction l with
  | nil => intro s d g; simp [optOr]
  | cons x xs ih =>
    intro s d g
    rw [List.foldl_cons]
    by_cases hp : p x = true
    · have hstep : scanStep p chk (s, d, g) x =
          (some x, (if s.isSome then d + 1 else d),
           (if chk x then g else g + 1)) := by
        simp [scanStep, hp]
      rw [hstep, ih]
      have hfil : (x :: xs).filter p = x :: xs.filter p := by
        simp [List.filter_cons, hp]
      rw [hfil, getLast?_cons_eq, optOr_some_right]
      have hcp : (x :: xs).countP p = xs.countP p + 1 :=
        List.countP_cons_of_pos p xs hp
      simp only [Prod.mk.injEq, Option.isSome_some, if_true]
      refine ⟨trivial, ?_, ?_⟩
      · rw [hcp]
        by_cases hs : s.isSome <;> simp [hs] <;> try omega
      · by_cases hc : chk x = true
        · simp [List.countP_cons, hp, hc]
        · have hc' : chk x = false := by simpa using hc
          simp [List.countP_cons, hp, hc']
          omega
    · have hp' : p x = false := by simpa using hp
      have hstep : scanStep p chk (s, d, g) x = (s, d, g) := by
        simp [scanStep, hp']
      rw [hstep, ih]
      have hfil : (x :: xs).filter p = xs.filter p := by
        simp [List.filter_cons, hp']
      have hcp : (x :: xs).countP p = xs.countP p :=
        List.countP_cons_of_neg p xs (by simp [hp'])
      have hb : (p x && !chk x) = false := by simp [hp']
      rw [hfil, hcp, List.countP_cons_of_neg _ _ (by simp [hb])]

/-- Closed form of the matcher's inner loop: last match, number of
duplicate warnings, number of matching records failing the geometry
check. -/
lemma scanLoop_eq {α : Type} (p chk : α → Bool) (l : List α) :
    scanLoop p chk l
      = ((l.filter p).getLast?,
         l.countP p - 1,
         l.countP (fun x => p x && !chk x)) := by
  rw [scanLoop, scanLoop_go]
  simp [optOr_none]

lemma mem_foldl_dedupAppend (l : List String) :
    ∀ (acc : List String) (x : String),
      x ∈ l.foldl dedupAppend acc ↔ x ∈ acc ∨ x ∈ l := by
  induction l with
  | nil => simp
  | cons y ys ih =>
    intro acc x
    rw [List.foldl_cons, ih]
    unfold dedupAppend
    by_cases hy : y ∈ acc
    · rw [if_pos hy]
      simp only [List.mem_cons]
      constructor
      · rintro (h | h)
        · exact Or.inl h
        · exact Or.inr (Or.inr h)
      · rintro (h | h | h)
        · exact Or.inl h
        · exact Or.inl (h ▸ hy)
        · exact Or.inr h
    · rw [if_neg hy]
      simp only [List.mem_append, List.mem_singleton, List.mem_cons]
      tauto

lemma nodup_foldl_dedupAppend (l : List String) :
    ∀ acc : List String, acc.Nodup → (l.foldl dedupAppend acc).Nodup := by
  induction l with
  | nil => intro acc h; exact h
  | cons y ys ih =>
    intro acc h
    rw [List.foldl_cons]
    apply ih
    unfold dedupAppend
    by_cases hy : y ∈ acc
    · rwa [if_pos hy]
    · rw [if_neg hy]
      simp [List.nodup_append, h, hy]

lemma dedupKeepFirst_nodup (l : List String) : (dedupKeepFirst l).Nodup :=
  nodup_foldl_dedupAppend l [] List.nodup_nil

lemma mem_dedupKeepFirst (l : List String) (x : String) :
    x ∈ dedupKeepFirst l ↔ x ∈ l := by
  simpa using mem_foldl_dedupAppend l [] x

/-- A pair `(t, f)` retained by a term section comes from a scan of `t`
ending on record `f` with no matching record failing the geometry
check. -/
lemma setffTerms_mem {α β : Type} (nm : α → String) (scanf : α → Option β × ℕ × ℕ)
    (terms : List α) (t : α) (f : β)
    (h : (t, f) ∈ (setffTerms nm scanf terms).1) :
    (scanf t).1 = some f ∧ (scanf t).2.2 = 0 := by
  simp only [setffTerms] at h
  rcases List.mem_filterMap.mp h with ⟨pr, hpr, hg⟩
  rcases List.mem_map.mp hpr with ⟨t0, _, rfl⟩
  dsimp only at hg
  rcases hs : (scanf t0).1 with _ | f'
  · rw [hs] at hg
    simp at hg
  · rw [hs] at hg
    have hg' : (if (scanf t0).2.2 = 0 then some (t0, f') else none) = some (t, f) := hg
    by_cases hz : (scanf t0).2.2 = 0
    · rw [if_pos hz] at hg'
      have h1 : t0 = t ∧ f' = f := by
        have := Option.some.inj hg'
        exact ⟨congrArg Prod.fst this, congrArg Prod.snd this⟩
      rcases h1 with ⟨rfl, rfl⟩
      exact ⟨hs, hz⟩
    · rw [if_neg hz] at hg'
      simp at hg'

lemma filterMap_miss {α β : Type} (nm : α → String) (scanf : α → Option β × ℕ × ℕ) :
    ∀ terms : List α,
      (terms.map (fun t => (t, scanf t))).filterMap
          (fun pr => if pr.2.1.isNone then some (nm pr.1) else none)
        = (terms.filter (fun t => ((scanf t).1).isNone)).map nm := by
  intro terms
  induction terms with
  | nil => rfl
  | cons t ts ih =>
    simp only [List.map_cons, List.filterMap_cons, List.filter_cons]
    by_cases h : ((scanf t).1).isNone = true
    · simp only [h, if_true, List.map_cons]
      rw [ih]
    · simp only [h, if_false, Bool.false_eq_true]
      rw [ih]

/-- The missing-name list of a term section is the deduplicated list of
names of terms with no matching record, in first-occurrence order. -/
lemma setffTerms_miss {α β : Type} (nm : α → String) (scanf : α → Option β × ℕ × ℕ)
    (terms : List α) :
    (setffTerms nm scanf terms).2
      = dedupKeepFirst ((terms.filter (fun t => ((scanf t).1).isNone)).map nm) := by
  simp only [setffTerms]
  rw [filterMap_miss]

lemma any_map' {α β : Type} (f : α → β) (l : List α) (p : β → Bool) :
    (l.map f).any p = l.any (fun a => p (f a)) := by
  induction l with
  | nil => rfl
  | cons x xs ih => simp [ih]

lemma setffBonds_fst_map (atype : ℤ → String) (dist : MolBond → ℚ)
    (ffbonds : List FFBond) :
    ∀ bonds : List MolBond,
      (∀ b ∈ bonds, ((bondScan atype dist ffbonds b).1).isSome = true) →
      ((bonds.map (fun b => (b, bondScan atype dist ffbonds b))).filterMap
          (fun pr => pr.2.1.map (fun f => (pr.1, f)))).map Prod.fst = bonds := by
  intro bonds
  induction bonds with
  | nil => intro _; rfl
  | cons b bs ih =>
    intro h
    rcases Option.isSome_iff_exists.mp (h b (List.mem_cons_self b bs)) with ⟨f, hf⟩
    simp only [List.map_cons, List.filterMap_cons, hf, Option.map_some', List.map_cons]
    rw [ih (fun b' hb' => h b' (List.mem_cons_of_mem b hb'))]

/-- When every bond matched, the bond section succeeds, keeps every
bond (in order), and the warning count is the sum over bonds of the
number of matching records whose `checkval` failed. -/
lemma setffBonds_ok (atype : ℤ → String) (dist : MolBond → ℚ) (ffbonds : List FFBond)
    (bonds : List MolBond)
    (h : ∀ b ∈ bonds, ((bondScan atype dist ffbonds b).1).isSome = true) :
    ∃ done : List (MolBond × FFBond),
      setffBonds atype dist ffbonds bonds
        = Except.ok (done, (bonds.map (fun b => (bondScan atype dist ffbonds b).2.2)).sum)
      ∧ done.map Prod.fst = bonds := by
  have hany : (bonds.map (fun bd => (bd, bondScan atype dist ffbonds bd))).any
      (fun pr => pr.2.1.isNone) = false := by
    rw [any_map', List.any_eq_false]
    intro b hb
    rw [Option.isNone_iff_eq_none]
    intro hnone
    dsimp only at hnone
    have hs := h b hb
    rw [hnone] at hs
    simp at hs
  refine ⟨(bonds.map (fun bd => (bd, bondScan atype dist ffbonds bd))).filterMap
      (fun pr => pr.2.1.map (fun f => (pr.1, f))), ?_, ?_⟩
  · simp only [setffBonds, hany, Bool.false_eq_true, if_false, List.map_map]
    rfl
  · exact setffBonds_fst_map atype dist ffbonds bonds h

/-- A bond with no matching record makes the bond section fatal. -/
lemma setffBonds_fatal (atype : ℤ → String) (dist : MolBond → ℚ) (ffbonds : List FFBond)
    (bonds : List MolBond)
    (h : ∃ bd ∈ bonds, (bondScan atype dist ffbonds bd).1 = none) :
    setffBonds atype dist ffbonds bonds = Except.error () := by
  rcases h with ⟨bd, hbd, hnone⟩
  have hany : (bonds.map (fun b => (b, bondScan atype dist ffbonds b))).any
      (fun pr => pr.2.1.isNone) = true := by
    rw [any_map', List.any_eq_true]
    exact ⟨bd, hbd, by simp [hnone]⟩
  simp only [setffBonds, hany, if_true]

lemma scan_geo_pos {α : Type} (p chk : α → Bool) (l : List α) (f : α)
    (hlast : (scanLoop p chk l).1 = some f) (hchk : chk f = false) :
    0 < (scanLoop p chk l).2.2 := by
  rw [scanLoop_eq] at hlast ⊢
  dsimp only at hlast ⊢
  have hmem := List.mem_of_mem_getLast? hlast
  have h1 := List.mem_filter.mp hmem
  exact List.countP_pos_iff.mpr ⟨f, h1.1, by simp [h1.2, hchk]⟩

/-- Claim C1 (amended).  For angles, dihedrals and impropers the claim
holds: a term whose derived name matches no database record in either
direction is removed from the molecule, processing continues, and the
distinct missing names are collected (in first-occurrence order,
without repetition) into the per-molecule lists that are reported in
one batch after all terms are processed.  For bonds, however, a missing
record is fatal: the bond section sets an error flag and the run aborts
(`sys.exit(1)`) after the bond loop, and the bond is not removed. -/
theorem C1_missing_bonded_terms
    (atype : ℤ → String) (dist : MolBond → ℚ) (theta : MolAngle → ℚ)
    (ffbonds : List FFBond) (ffangles : List FFAngle) (ffdiheds ffdimprs : List FFDihed)
    (bonds : List MolBond) (angles : List MolAngle) (diheds dimprs : List MolDihed) :
    ((setffAngles atype theta ffangles angles).2
        = dedupKeepFirst ((angles.filter
              (fun an => ((angleScan atype theta ffangles an).1).isNone)).map (angleNm atype))
      ∧ (setffAngles atype theta ffangles angles).2.Nodup
      ∧ ∀ an : MolAngle, (angleScan atype theta ffangles an).1 = none →
          ∀ f, (an, f) ∉ (setffAngles atype theta ffangles angles).1)
    ∧ ((setffDiheds atype ffdiheds diheds).2
        = dedupKeepFirst ((diheds.filter
              (fun dh => ((dihedScan atype ffdiheds dh).1).isNone)).map (dihedNm atype))
      ∧ (setffDiheds atype ffdiheds diheds).2.Nodup
      ∧ ∀ dh : MolDihed, (dihedScan atype ffdiheds dh).1 = none →
          ∀ f, (dh, f) ∉ (setffDiheds atype ffdiheds diheds).1)
    ∧ ((setffDimprs atype ffdimprs dimprs).2
        = dedupKeepFirst ((dimprs.filter
              (fun di => ((dihedScan atype ffdimprs di).1).isNone)).map (dihedNm atype))
      ∧ (setffDimprs atype ffdimprs dimprs).2.Nodup
      ∧ ∀ di : MolDihed, (dihedScan atype ffdimprs di).1 = none →
          ∀ f, (di, f) ∉ (setffDimprs atype ffdimprs dimprs).1)
    ∧ ((∃ bd ∈ bonds, (bondScan atype dist ffbonds bd).1 = none) →
        setffBonds atype dist ffbonds bonds = Except.error ()) := by
  refine ⟨⟨?_, ?_, ?_⟩, ⟨?_, ?_, ?_⟩, ⟨?_, ?_, ?_⟩, ?_⟩
  · exact setffTerms_miss _ _ _
  · rw [setffAngles, setffTerms_miss]
    exact dedupKeepFirst_nodup _
  · intro an hnone f hf
    rcases setffTerms_mem _ _ _ _ _ hf with ⟨hsome, _⟩
    rw [hnone] at hsome
    exact Option.noConfusion hsome
  · exact setffTerms_miss _ _ _
  · rw [setffDiheds, setffTerms_miss]
    exact dedupKeepFirst_nodup _
  · intro dh hnone f hf
    rcases setffTerms_mem _ _ _ _ _ hf with ⟨hsome, _⟩
    rw [hnone] at hsome
    exact Option.noConfusion hsome
  · exact setffTerms_miss _ _ _
  · rw [setffDimprs, setffTerms_miss]
    exact dedupKeepFirst_nodup _
  · intro di hnone f hf
    rcases setffTerms_mem _ _ _ _ _ hf with ⟨hsome, _⟩
    rw [hnone] at hsome
    exact Option.noConfusion hsome
  · exact setffBonds_fatal atype dist ffbonds bonds

/-- Claim C1, counterexample to the claim as stated: a molecule holding
one bond whose name "X-X" matches no record of an empty bond database.
The claim says the term is removed and processing continues; the code
instead aborts fatally on missing bond parameters. -/
theorem C1_missing_bonded_terms_cex :
    setffBonds (fun _ => "X") (fun _ => 1) [] [⟨0, 1⟩] = Except.error () := rfl

/-- Claim C1, witness: the amended theorem applied to a concrete
molecule with one unmatched bond. -/
theorem C1_missing_bonded_terms_w :
    setffBonds (fun _ => "C") (fun _ => 0) [] [⟨0, 1⟩] = Except.error () :=
  (C1_missing_bonded_terms (fun _ => "C") (fun _ => 0) (fun _ => 0)
      [] [] [] [] [⟨0, 1⟩] [] [] []).2.2.2
    ⟨⟨0, 1⟩, List.mem_singleton.mpr rfl, rfl⟩

/-- Claim C2 (amended): when an atom (or bond) name matches several
database records, every match overwrites the previously assigned
parameters, so the *last* matching record wins — not the first — and
one non-fatal duplicate warning is printed per match after the first
(`matches - 1` in total). -/
theorem C2_duplicate_last_match (ffatoms : List FFAtom) (ffbonds : List FFBond)
    (atype : ℤ → String) (dist : MolBond → ℚ) (a : MolAtom) (bd : MolBond) :
    (atomScan ffatoms a.name).1 = (ffatoms.filter (atomMatch a.name)).getLast?
    ∧ (atomScan ffatoms a.name).2.1 = ffatoms.countP (atomMatch a.name) - 1
    ∧ (∀ f : FFAtom, (ffatoms.filter (atomMatch a.name)).getLast? = some f →
        setffAtomPar ffatoms a
          = { a with type := f.type, q := f.q, pot := f.pot, par := f.par, m := f.m })
    ∧ (bondScan atype dist ffbonds bd).1
        = (ffbonds.filter (bondMatch (bondNm atype bd))).getLast?
    ∧ (bondScan atype dist ffbonds bd).2.1
        = ffbonds.countP (bondMatch (bondNm atype bd)) - 1 := by
  refine ⟨?_, ?_, ?_, ?_, ?_⟩
  · rw [atomScan, scanLoop_eq]
  · rw [atomScan, scanLoop_eq]
  · intro f hf
    have h1 : (atomScan ffatoms a.name).1 = some f := by
      rw [atomScan, scanLoop_eq]
      exact hf
    simp only [setffAtomPar, h1]
  · rw [bondScan, scanLoop_eq]
  · rw [bondScan, scanLoop_eq]

/-- Claim C2, counterexample to the claim as stated: two database
records for atom name "N" with different charges; the parameters that
end up assigned are those of the second (last) record, whose charge
differs from the first record's, and one duplicate warning is
printed. -/
theorem C2_duplicate_last_match_cex :
    (atomScan [⟨"N", "NA", 14, 1/2, "lj", [1, 2]⟩,
               ⟨"N", "NB", 15, -1/2, "buck", [3]⟩] "N").1
        = some ⟨"N", "NB", 15, -1/2, "buck", [3]⟩
      ∧ ((⟨"N", "NB", 15, -1/2, "buck", [3]⟩ : FFAtom).q
            ≠ (⟨"N", "NA", 14, 1/2, "lj", [1, 2]⟩ : FFAtom).q)
      ∧ (atomScan [⟨"N", "NA", 14, 1/2, "lj", [1, 2]⟩,
                   ⟨"N", "NB", 15, -1/2, "buck", [3]⟩] "N").2.1 = 1 := by
  refine ⟨rfl, by norm_num, rfl⟩

/-- Claim C2, witness: the amended theorem applied to a concrete atom
with two matching records assigns the second record's parameters. -/
theorem C2_duplicate_last_match_w :
    setffAtomPar [⟨"N", "NA", 14, 1/2, "lj", [1, 2]⟩,
                  ⟨"N", "NB", 15, -1/2, "buck", [3]⟩] (atomMk "N" 14)
      = { atomMk "N" 14 with type := "NB", q := -1/2, pot := "buck", par := [3], m := 15 } :=
  (C2_duplicate_last_match
      [⟨"N", "NA", 14, 1/2, "lj", [1, 2]⟩, ⟨"N", "NB", 15, -1/2, "buck", [3]⟩]
      [] (fun _ => "") (fun _ => 0) (atomMk "N" 14) ⟨0, 0⟩).2.2.1
    ⟨"N", "NB", 15, -1/2, "buck", [3]⟩ rfl

/-- Claim C4 (confirmed): after matching, a bond whose observed length
fails `checkval` against the matched record's equilibrium value is kept
in the molecule's bond list, with only a non-fatal warning counted; an
angle whose observed value fails `checkval` is removed from the angle
list. -/
theorem C4_tolerance
    (atype : ℤ → String) (dist : MolBond → ℚ) (theta : MolAngle → ℚ)
    (ffbonds : List FFBond) (ffangles : List FFAngle)
    (bonds : List MolBond) (angles : List MolAngle)
    (bd : MolBond) (ffbd : FFBond) (an : MolAngle) (ffan : FFAngle)
    (hall : ∀ b ∈ bonds, ((bondScan atype dist ffbonds b).1).isSome = true)
    (hbd : bd ∈ bonds)
    (hbm : (bondScan atype dist ffbonds bd).1 = some ffbd)
    (hbc : ffbd.checkval (dist bd) = false)
    (ham : (angleScan atype theta ffangles an).1 = some ffan)
    (hac : ffan.checkval (theta an) = false) :
    (∃ done warns, setffBonds atype dist ffbonds bonds = Except.ok (done, warns)
      ∧ done.map Prod.fst = bonds ∧ 1 ≤ warns)
    ∧ ∀ f, (an, f) ∉ (setffAngles atype theta ffangles angles).1 := by
  constructor
  · rcases setffBonds_ok atype dist ffbonds bonds hall with ⟨done, hok, hfst⟩
    refine ⟨done, _, hok, hfst, ?_⟩
    have hone : 0 < (bondScan atype dist ffbonds bd).2.2 :=
      scan_geo_pos _ _ _ ffbd hbm hbc
    have hmem : (bondScan atype dist ffbonds bd).2.2
        ∈ bonds.map (fun b => (bondScan atype dist ffbonds b).2.2) :=
      List.mem_map_of_mem _ hbd
    have hle := List.single_le_sum (l := bonds.map (fun b => (bondScan atype dist ffbonds b).2.2))
      (fun x _ => Nat.zero_le x) _ hmem
    omega
  · intro f hf
    rcases setffTerms_mem _ _ _ _ _ hf with ⟨_, hzero⟩
    have hgeo : 0 < (angleScan atype theta ffangles an).2.2 :=
      scan_geo_pos _ _ _ ffan ham hac
    omega

/-- Claim C4, witness: the spec's own example.  Bond type "CT-CT" with
equilibrium length 1.529 and observed distance 1.80 (deviation 0.271)
is flagged but kept; an angle observed at 130 degrees against an
equilibrium of 109.5 (deviation 20.5) is removed. -/
theorem C4_tolerance_w :
    (∃ done warns,
        setffBonds (fun _ => "CT") (fun _ => 18/10)
            [⟨"CT", "CT", "harm", [1529/1000, 2242], 1529/1000⟩] [⟨0, 1⟩]
          = Except.ok (done, warns)
        ∧ done.map Prod.fst = [⟨0, 1⟩] ∧ 1 ≤ warns)
    ∧ ∀ f, ((⟨0, 1, 2⟩ : MolAngle), f)
        ∉ (setffAngles (fun _ => "CT") (fun _ => 130)
            [⟨"CT", "CT", "CT", "harm", [1095/10, 50], 1095/10⟩] [⟨0, 1, 2⟩]).1 :=
  C4_tolerance (fun _ => "CT") (fun _ => 18/10) (fun _ => 130)
    [⟨"CT", "CT", "harm", [1529/1000, 2242], 1529/1000⟩]
    [⟨"CT", "CT", "CT", "harm", [1095/10, 50], 1095/10⟩]
    [⟨0, 1⟩] [⟨0, 1, 2⟩]
    ⟨0, 1⟩ ⟨"CT", "CT", "harm", [1529/1000, 2242], 1529/1000⟩
    ⟨0, 1, 2⟩ ⟨"CT", "CT", "CT", "harm", [1095/10, 50], 1095/10⟩
    (by intro b hb; rw [List.mem_singleton] at hb; subst hb; rfl)
    (List.mem_singleton.mpr rfl)
    rfl
    (by
      simp only [FFBond.checkval, decide_eq_false_iff_not]
      rw [show (18 : ℚ)/10 - 1529/1000 = 271/1000 from by norm_num]
      rw [abs_of_pos (by norm_num : (0 : ℚ) < 271/1000)]
      norm_num)
    rfl
    (by
      simp only [FFAngle.checkval, decide_eq_false_iff_not]
      rw [show (130 : ℚ) - 1095/10 = 41/2 from by norm_num]
      rw [abs_of_pos (by norm_num : (0 : ℚ) < 41/2)]
      norm_num)

/-- Claim C5 (confirmed): for a pair of Lennard-Jones atom types with
equal parameter-list lengths, the vdw record copies the single type's
parameters verbatim when the names coincide; otherwise its first
parameter is the geometric mean (`sqrt` of the product) of the two
first parameters under the geometric rule and the arithmetic mean under
any other rule, and the second parameter is the geometric mean of the
two second parameters under both rules. -/
theorem C5_vdw_mixing (sqrtQ : ℚ → ℚ) (iat jat : AtType) (mix : String)
    (hpi : iat.pot = "lj") (hpj : jat.pot = "lj")
    (hlen : iat.par.length = jat.par.length) :
    ∃ v : VdW, vdwMk sqrtQ iat jat mix = Except.ok v
      ∧ v.pot = "lj" ∧ v.i = iat.name ∧ v.j = jat.name
      ∧ (iat.name = jat.name → v.par = some iat.par)
      ∧ (iat.name ≠ jat.name → mix = "g" →
          v.par = some [sqrtQ (iat.par.getD 0 0 * jat.par.getD 0 0),
                        sqrtQ (iat.par.getD 1 0 * jat.par.getD 1 0)])
      ∧ (iat.name ≠ jat.name → mix ≠ "g" →
          v.par = some [(iat.par.getD 0 0 + jat.par.getD 0 0) / 2,
                        sqrtQ (iat.par.getD 1 0 * jat.par.getD 1 0)]) := by
  have hpot : ¬ iat.pot ≠ jat.pot := by rw [hpi, hpj]; exact fun h => h rfl
  have hl : ¬ iat.par.length ≠ jat.par.length := fun h => h hlen
  refine ⟨_, by rw [vdwMk, if_neg hpot, if_neg hl], hpi, rfl, rfl, ?_, ?_, ?_⟩
  · intro hnm
    simp only [hpi, if_true, hnm, if_pos rfl]
  · intro hnm hg
    simp only [hpi, if_true, if_neg hnm, hg, if_pos rfl]
  · intro hnm hg
    simp only [hpi, if_true, if_neg hnm, if_neg hg]

/-- Claim C5, witness: the spec's example, types "CT" and "HC" with
LJ parameters [0.066, 3.5] and [0.03, 2.5] under geometric mixing,
with the square root abstracted by the identity function. -/
theorem C5_vdw_mixing_w :
    ∃ v : VdW,
      vdwMk (fun x => x) ⟨"CT", 0, "lj", [66/1000, 35/10]⟩
          ⟨"HC", 1, "lj", [3/100, 25/10]⟩ "g"
          = Except.ok v
        ∧ v.pot = "lj" ∧ v.i = "CT" ∧ v.j = "HC"
        ∧ v.par = some [(66/1000 : ℚ) * (3/100), (35/10 : ℚ) * (25/10)] := by
  rcases C5_vdw_mixing (fun x => x) ⟨"CT", 0, "lj", [66/1000, 35/10]⟩
      ⟨"HC", 1, "lj", [3/100, 25/10]⟩ "g" rfl rfl rfl
    with ⟨v, hok, hpot, hi, hj, _, hdiff, _⟩
  exact ⟨v, hok, hpot, hi, hj, hdiff (by decide) rfl⟩

/-- Claim C8 (amended): for a pair of atom types with equal potential
kinds other than `lj` *and equal parameter-list lengths*, the vdw
constructor succeeds, records names, type indices and potential kind,
and never assigns a parameter list (the attribute stays absent).  With
different parameter-list lengths the constructor is fatal even for
matching non-`lj` kinds, which the original claim overlooked. -/
theorem C8_vdw_non_lj (sqrtQ : ℚ → ℚ) (iat jat : AtType) (mix : String)
    (hp : iat.pot = jat.pot) (hlj : iat.pot ≠ "lj")
    (hlen : iat.par.length = jat.par.length) :
    vdwMk sqrtQ iat jat mix
      = Except.ok ⟨iat.name, jat.name, iat.ityp, jat.ityp, iat.pot, none⟩ := by
  have hpot : ¬ iat.pot ≠ jat.pot := fun h => h hp
  have hl : ¬ iat.par.length ≠ jat.par.length := fun h => h hlen
  rw [vdwMk, if_neg hpot, if_neg hl, if_neg hlj]

/-- Claim C8, counterexample to the claim as stated: two atom types
with the same non-`lj` potential kind "buck" but parameter lists of
different lengths make the constructor abort, so "always succeeds" is
false without the equal-length hypothesis. -/
theorem C8_vdw_non_lj_cex :
    (⟨"A", 0, "buck", [1, 2]⟩ : AtType).pot = (⟨"B", 1, "buck", [1, 2, 3]⟩ : AtType).pot
    ∧ (⟨"A", 0, "buck", [1, 2]⟩ : AtType).pot ≠ "lj"
    ∧ vdwMk (fun x => x) ⟨"A", 0, "buck", [1, 2]⟩ ⟨"B", 1, "buck", [1, 2, 3]⟩ "g"
        = Except.error () :=
  ⟨rfl, by decide, rfl⟩

/-- Claim C8, witness: the amended theorem at a concrete non-`lj` pair
with equal parameter-list lengths. -/
theorem C8_vdw_non_lj_w :
    vdwMk (fun x => x) ⟨"A", 0, "buck", [1, 2, 3]⟩ ⟨"B", 1, "buck", [4, 5, 6]⟩ "g"
      = Except.ok ⟨"A", "B", 0, 1, "buck", none⟩ :=
  C8_vdw_non_lj (fun x => x) ⟨"A", 0, "buck", [1, 2, 3]⟩ ⟨"B", 1, "buck", [4, 5, 6]⟩ "g"
    rfl (by decide) rfl

/-- Claim C9 (confirmed): a cell built with a non-empty periodicity
specification stores `tol = 0.0` no matter what gap the caller passed;
the caller's gap survives only when the periodicity string is empty. -/
theorem C9_cell_tol (a b c : ℚ) (pbc : String) (tol : ℚ) (center : Bool) :
    (pbc ≠ "" → (cellMk a b c pbc tol center).tol = 0)
    ∧ (pbc = "" → (cellMk a b c pbc tol center).tol = tol) := by
  constructor
  · intro h
    simp only [cellMk, if_pos h]
  · intro h
    simp only [cellMk, h]
    simp

/-- Claim C9, witness: a fully periodic cell with caller gap 2.5 stores
tolerance 0, and the same cell without periodicity keeps 2.5. -/
theorem C9_cell_tol_w :
    (cellMk 30 30 30 "xyz" (25/10) false).tol = 0
    ∧ (cellMk 30 30 30 "" (25/10) false).tol = 25/10 :=
  ⟨(C9_cell_tol 30 30 30 "xyz" (25/10) false).1 (by decide),
   (C9_cell_tol 30 30 30 "" (25/10) false).2 rfl⟩

/-- Claim C10 (confirmed): an atom name found neither under its
two-character key nor under its one-character key gets atomic weight
0.0 after a warning — the lookup never aborts — and an atom built from
such a name with no explicit mass therefore has mass 0.0. -/
theorem C10_unknown_weight (name : String) (_hne : name ≠ "")
    (h2 : wtLookup (name.take 2) = none) (h1 : wtLookup (name.take 1) = none) :
    atomic_weight name = 0 ∧ (atomMk name 0).m = 0 := by
  have hw : atomic_weight name = 0 := by
    rw [atomic_weight, h2, h1]
  refine ⟨hw, ?_⟩
  simp only [atomMk, if_pos rfl]
  exact hw

/-- Claim C10, witness: the unknown name "Qq". -/
theorem C10_unknown_weight_w :
    atomic_weight "Qq" = 0 ∧ (atomMk "Qq" 0).m = 0 :=
  C10_unknown_weight "Qq" (by decide) rfl rfl

lemma build_type_list_cons (a : Term) (ts acc : List Term) :
    build_type_list (a :: ts) acc
      = build_type_list ts
          (if acc.any (fun b => a.name == b.name) then acc else acc ++ [a]) := rfl

lemma system_type_list_eq (specs : List (List Term)) :
    system_type_list specs = build_type_list specs.flatten [] := by
  rw [build_type_list, List.foldl_flatten]
  rfl

lemma build_type_list_names :
    ∀ (terms acc : List Term),
      (build_type_list terms acc).map Term.name
        = (terms.map Term.name).foldl dedupAppend (acc.map Term.name) := by
  intro terms
  induction terms with
  | nil => intro acc; rfl
  | cons a ts ih =>
    intro acc
    rw [build_type_list_cons, List.map_cons, List.foldl_cons, ih]
    have hcond : (acc.any (fun b => a.name == b.name) = true)
        ↔ a.name ∈ acc.map Term.name := by
      simp only [List.any_eq_true, beq_iff_eq, List.mem_map]
      constructor
      · rintro ⟨b, hb, hn⟩
        exact ⟨b, hb, hn.symm⟩
      · rintro ⟨b, hb, hn⟩
        exact ⟨b, hb, hn.symm⟩
    by_cases h : acc.any (fun b => a.name == b.name) = true
    · rw [if_pos h]
      congr 1
      rw [dedupAppend, if_pos (hcond.mp h)]
    · rw [if_neg h]
      congr 1
      rw [dedupAppend, if_neg (fun hm => h (hcond.mpr hm)), List.map_append]
      rfl

/-- The type table's name column is the deduplicated name sequence of
all terms across species, in first-occurrence order. -/
lemma system_type_list_names (specs : List (List Term)) :
    (system_type_list specs).map Term.name
      = dedupKeepFirst (specs.flatten.map Term.name) := by
  rw [system_type_list_eq, build_type_list_names, dedupKeepFirst]
  rfl

lemma find_type_index_isSome (nm : String) :
    ∀ tt : List Term, nm ∈ tt.map Term.name → (find_type_index nm tt).isSome = true := by
  intro tt
  induction tt with
  | nil => intro h; simp at h
  | cons b ts ih =>
    intro h
    rw [find_type_index]
    by_cases hb : nm = b.name
    · rw [if_pos hb]; rfl
    · rw [if_neg hb]
      rw [List.map_cons, List.mem_cons] at h
      rcases h with h | h
      · exact absurd h hb
      · rw [Option.isSome_map']
        exact ih h

lemma find_type_index_spec (nm : String) :
    ∀ (tt : List Term) (i : ℕ), find_type_index nm tt = some i →
      ∃ h : i < tt.length, (tt.get ⟨i, h⟩).name = nm := by
  intro tt
  induction tt with
  | nil => intro i h; simp [find_type_index] at h
  | cons b ts ih =>
    intro i h
    rw [find_type_index] at h
    by_cases hb : nm = b.name
    · rw [if_pos hb] at h
      cases Option.some.inj h
      exact ⟨Nat.succ_pos _, hb.symm⟩
    · rw [if_neg hb] at h
      rcases Option.map_eq_some'.mp h with ⟨i', hi', rfl⟩
      rcases ih i' hi' with ⟨hl, hn⟩
      exact ⟨Nat.succ_lt_succ hl, hn⟩

/-- Claim C3 (amended): the aggregator deduplicates type tables by
*exact* name-string equality, ordered by first occurrence across
species, and two term instances receive the same zero-based type index
exactly when their name strings are equal — not under the undirected
(forward-or-reversed) rule the matcher uses.  Terms whose names are
equal only after reversal get distinct entries and distinct indices. -/
theorem C3_type_tables (specs : List (List Term)) (a b : Term)
    (ha : a ∈ specs.flatten) (hb : b ∈ specs.flatten) :
    ((assign_type_index (system_type_list specs) a).ityp
        = (assign_type_index (system_type_list specs) b).ityp
      ↔ a.name = b.name)
    ∧ (system_type_list specs).map Term.name
        = dedupKeepFirst (specs.flatten.map Term.name) := by
  refine ⟨?_, system_type_list_names specs⟩
  have hmem : ∀ t : Term, t ∈ specs.flatten →
      t.name ∈ (system_type_list specs).map Term.name := by
    intro t ht
    rw [system_type_list_names, mem_dedupKeepFirst]
    exact List.mem_map_of_mem _ ht
  rcases Option.isSome_iff_exists.mp (find_type_index_isSome a.name _ (hmem a ha))
    with ⟨ia, hia⟩
  rcases Option.isSome_iff_exists.mp (find_type_index_isSome b.name _ (hmem b hb))
    with ⟨ib, hib⟩
  rcases find_type_index_spec a.name _ ia hia with ⟨hla, hna⟩
  rcases find_type_index_spec b.name _ ib hib with ⟨hlb, hnb⟩
  simp only [assign_type_index, hia, hib]
  constructor
  · intro h
    have hii : ia = ib := by exact_mod_cast h
    subst hii
    rw [← hna, ← hnb]
  · intro h
    have hfind : find_type_index a.name (system_type_list specs)
        = find_type_index b.name (system_type_list specs) := by rw [h]
    rw [hia, hib] at hfind
    rw [Option.some.inj hfind]

/-- Claim C3, counterexample to the claim as stated: two bond-type
names equal under reversal ("A-B" and "B-A") end up as two distinct
type-table entries with distinct type indices, not one shared entry. -/
theorem C3_type_tables_cex :
    system_type_list [[⟨"A-B", -1⟩, ⟨"B-A", -1⟩]] = [⟨"A-B", -1⟩, ⟨"B-A", -1⟩]
    ∧ (assign_type_index (system_type_list [[⟨"A-B", -1⟩, ⟨"B-A", -1⟩]]) ⟨"A-B", -1⟩).ityp = 0
    ∧ (assign_type_index (system_type_list [[⟨"A-B", -1⟩, ⟨"B-A", -1⟩]]) ⟨"B-A", -1⟩).ityp = 1 :=
  ⟨rfl, rfl, rfl⟩

/-- Claim C3, witness: two species sharing the atom-type name "C"; the
amended theorem applied to a term from each species. -/
theorem C3_type_tables_w :
    ((assign_type_index (system_type_list [[⟨"C", -1⟩], [⟨"H", -1⟩, ⟨"C", -1⟩]]) ⟨"C", -1⟩).ityp
        = (assign_type_index (system_type_list [[⟨"C", -1⟩], [⟨"H", -1⟩, ⟨"C", -1⟩]]) ⟨"H", -1⟩).ityp
      ↔ ("C" : String) = "H")
    ∧ (system_type_list [[⟨"C", -1⟩], [⟨"H", -1⟩, ⟨"C", -1⟩]]).map Term.name
        = dedupKeepFirst ([[⟨"C", -1⟩], [⟨"H", -1⟩, ⟨"C", -1⟩]].flatten.map Term.name) :=
  C3_type_tables [[⟨"C", -1⟩], [⟨"H", -1⟩, ⟨"C", -1⟩]] ⟨"C", -1⟩ ⟨"H", -1⟩
    (by decide) (by decide)

/-- Claim C7 (amended): bonds inferred by `mol.connectivity` do satisfy
`0 ≤ i < j < natom`.  Bonds declared by a z-matrix, however, store the
*new* atom's index first and the reference second, so for a well-formed
reference (an earlier atom, `1 ≤ ir ≤ i`) they satisfy `j < i`, the
reverse of the claimed order; explicit `connect` records are taken
verbatim with no range validation at all. -/
theorem C7_bond_indices (atypes : List String) (ffbonds : List FFBond)
    (dist : ℕ → ℕ → ℚ) (zatom : List ZAtom) :
    (∀ bd ∈ connectivityBonds atypes ffbonds dist,
        0 ≤ bd.i ∧ bd.i < bd.j ∧ bd.j < (atypes.length : ℤ))
    ∧ (∀ bd ∈ fromzmatSeqBonds zatom,
        1 ≤ bd.i ∧ bd.i < (zatom.length : ℤ)
        ∧ bd.j = (zatom.getD bd.i.toNat ZAtom.dflt).ir - 1
        ∧ (1 ≤ (zatom.getD bd.i.toNat ZAtom.dflt).ir
            ∧ (zatom.getD bd.i.toNat ZAtom.dflt).ir ≤ bd.i → bd.j < bd.i)) := by
  constructor
  · intro bd hbd
    rw [connectivityBonds] at hbd
    rcases List.mem_flatMap.mp hbd with ⟨i, hi, hbd⟩
    rcases List.mem_flatMap.mp hbd with ⟨j, hj, hbd⟩
    rcases List.mem_flatMap.mp hbd with ⟨ffbd, _, hbd⟩
    rw [List.mem_range] at hi
    rw [List.mem_range'] at hj
    rcases hj with ⟨kk, hkk, rfl⟩
    split at hbd
    · rw [List.mem_singleton] at hbd
      subst hbd
      refine ⟨by positivity, ?_, ?_⟩ <;> (dsimp only; omega)
    · simp at hbd
  · intro bd hbd
    rw [fromzmatSeqBonds] at hbd
    rcases List.mem_map.mp hbd with ⟨i, hi, rfl⟩
    rw [List.mem_range'] at hi
    rcases hi with ⟨kk, hkk, rfl⟩
    dsimp only
    rw [Int.toNat_natCast]
    refine ⟨by omega, by omega, rfl, by omega⟩

/-- Claim C7, counterexample to the claim as stated: a two-atom
z-matrix whose second atom references the first (`ir = 1`) produces the
bond `(1, 0)`, so its indices do not satisfy `i < j`. -/
theorem C7_bond_indices_cex :
    (⟨1, 0⟩ : MolBond) ∈ fromzmatBonds
        [⟨"C", 0, 0, 0, 0, 0, 0⟩, ⟨"H", 1, 2, 0, 0, 0, 0⟩] []
    ∧ ¬ ((⟨1, 0⟩ : MolBond).i < (⟨1, 0⟩ : MolBond).j) := by
  refine ⟨?_, by decide⟩
  decide

/-- Claim C7, witness: the amended theorem applied to the same two-atom
z-matrix bond. -/
theorem C7_bond_indices_w :
    1 ≤ (MolBond.mk 1 0).i
    ∧ (MolBond.mk 1 0).i
        < ((([⟨"C", 0, 0, 0, 0, 0, 0⟩, ⟨"H", 1, 2, 0, 0, 0, 0⟩] : List ZAtom)).length : ℤ)
    ∧ (MolBond.mk 1 0).j
        = (([⟨"C", 0, 0, 0, 0, 0, 0⟩, ⟨"H", 1, 2, 0, 0, 0, 0⟩] : List ZAtom).getD
            (MolBond.mk 1 0).i.toNat ZAtom.dflt).ir - 1
    ∧ (1 ≤ (([⟨"C", 0, 0, 0, 0, 0, 0⟩, ⟨"H", 1, 2, 0, 0, 0, 0⟩] : List ZAtom).getD
            (MolBond.mk 1 0).i.toNat ZAtom.dflt).ir
        ∧ (([⟨"C", 0, 0, 0, 0, 0, 0⟩, ⟨"H", 1, 2, 0, 0, 0, 0⟩] : List ZAtom).getD
            (MolBond.mk 1 0).i.toNat ZAtom.dflt).ir ≤ (MolBond.mk 1 0).i
        → (MolBond.mk 1 0).j < (MolBond.mk 1 0).i) :=
  (C7_bond_indices [] [] (fun _ _ => 0)
      [⟨"C", 0, 0, 0, 0, 0, 0⟩, ⟨"H", 1, 2, 0, 0, 0, 0⟩]).2
    ⟨1, 0⟩ (by decide)

lemma flatMap_range_nil {α : Type} :
    ∀ (m : ℕ) (f : ℕ → List α), (∀ j, j < m → f j = []) →
      (List.range m).flatMap f = [] := by
  intro m
  induction m with
  | zero => intro f _; simp
  | succ m ih =>
    intro f hf
    rw [List.range_succ, List.flatMap_append, ih f (fun j hj => hf j (Nat.lt_succ_of_lt hj))]
    simp [hf m (Nat.lt_succ_self m)]

/-- A function vanishing everywhere on the range except possibly at `i`
flat-maps to its value at `i` (when `i` is in range). -/
lemma flatMap_range_pad {α : Type} (L : List α) :
    ∀ (m i : ℕ) (f : ℕ → List α),
      (∀ j, j < m → f j = if j = i then L else []) →
      (List.range m).flatMap f = if i < m then L else [] := by
  intro m
  induction m with
  | zero => intro i f _; simp
  | succ m ih =>
    intro i f hf
    rw [List.range_succ, List.flatMap_append,
      ih i f (fun j hj => hf j (Nat.lt_succ_of_lt hj))]
    rw [List.flatMap_cons, List.flatMap_nil, List.append_nil,
      hf m (Nat.lt_succ_self m)]
    by_cases him : i < m
    · rw [if_pos him, if_neg (by omega), List.append_nil, if_pos (by omega)]
    · by_cases heq : m = i
      · subst heq
        rw [if_neg him, if_pos rfl, List.nil_append, if_pos (by omega)]
      · rw [if_neg him, if_neg heq, List.append_nil, if_neg (by omega)]

/-- A function producing a singleton exactly on the interval
`[lo, hi)` flat-maps over the range to the mapped interval. -/
lemma flatMap_range_interval {α : Type} (g : ℕ → α) :
    ∀ (m hi lo : ℕ) (f : ℕ → List α),
      (∀ j, j < m → f j = if lo ≤ j ∧ j < hi then [g j] else []) → hi ≤ m →
      (List.range m).flatMap f = (List.range (hi - lo)).map (fun a => g (lo + a)) := by
  intro m
  induction m with
  | zero =>
    intro hi lo f _ hhi
    have : hi = 0 := by omega
    subst this
    simp
  | succ m ih =>
    intro hi lo f hf hhi
    rw [List.range_succ, List.flatMap_append, List.flatMap_cons, List.flatMap_nil,
      List.append_nil]
    by_cases hh : hi ≤ m
    · rw [ih hi lo f (fun j hj => hf j (Nat.lt_succ_of_lt hj)) hh]
      rw [hf m (Nat.lt_succ_self m), if_neg (by omega), List.append_nil]
    · have hhi' : hi = m + 1 := by omega
      subst hhi'
      have hf' : ∀ j, j < m → f j = if lo ≤ j ∧ j < m then [g j] else [] := by
        intro j hj
        rw [hf j (Nat.lt_succ_of_lt hj)]
        by_cases hlo : lo ≤ j
        · rw [if_pos ⟨hlo, by omega⟩, if_pos ⟨hlo, hj⟩]
        · rw [if_neg (by omega), if_neg (by omega)]
      rw [ih m lo f hf' (le_refl m), hf m (Nat.lt_succ_self m)]
      by_cases hlo : lo ≤ m
      · rw [if_pos ⟨hlo, by omega⟩]
        have h1 : m + 1 - lo = (m - lo) + 1 := by omega
        rw [h1, List.range_succ, List.map_append, List.map_cons, List.map_nil]
        have h2 : lo + (m - lo) = m := by omega
        rw [h2]
      · rw [if_neg (by omega)]
        have h1 : m - lo = 0 := by omega
        have h2 : m + 1 - lo = 0 := by omega
        rw [h1, h2]
        simp

lemma chainBonds_length (n : ℕ) : (chainBonds n).length = n - 1 := by
  rw [chainBonds, List.length_map, List.length_range]

lemma chainBonds_getD (n k : ℕ) (hk : k < n - 1) :
    bondAt (chainBonds n) k = ⟨(k : ℤ), (k : ℤ) + 1⟩ := by
  rw [bondAt, chainBonds, List.getD_eq_getElem?_getD, List.getElem?_map,
    List.getElem?_range hk]
  rfl

lemma filterMap_singleton' {α β : Type} (f : α → Option β) (a : α) :
    List.filterMap f [a] = (f a).toList := by
  cases h : f a <;> simp [List.filterMap_cons, h]

lemma filterMap_nbf_range (i : ℕ) :
    ∀ m : ℕ, (List.range m).filterMap
        (fun (k : ℕ) => if (i : ℤ) = (k : ℤ) then some ((k : ℤ) + 1)
          else if (i : ℤ) = (k : ℤ) + 1 then some (k : ℤ) else none)
      = (if 1 ≤ i ∧ i - 1 < m then [(i : ℤ) - 1] else [])
        ++ (if i < m then [(i : ℤ) + 1] else []) := by
  intro m
  induction m with
  | zero => simp
  | succ m ih =>
    rw [List.range_succ, List.filterMap_append, ih, filterMap_singleton']
    split_ifs <;> (try (exfalso; omega)) <;> (simp; try omega)

lemma neighbors_chain (n i : ℕ) :
    neighbors (i : ℤ) (chainBonds n)
      = (if 1 ≤ i ∧ i - 1 < n - 1 then [(i : ℤ) - 1] else [])
        ++ (if i < n - 1 then [(i : ℤ) + 1] else []) := by
  rw [neighbors, chainBonds, List.filterMap_map]
  exact filterMap_nbf_range i (n - 1)

/-- On the chain, only interior atoms (two neighbours) contribute an
angle, and it is `(i-1, i, i+1)`. -/
lemma anglesFor_chain (n i : ℕ) (hi : i < n) :
    anglesFor (chainBonds n) i
      = if 1 ≤ i ∧ i < n - 1
        then [⟨(i : ℤ) - 1, (i : ℤ), (i : ℤ) + 1⟩] else [] := by
  rw [anglesFor, neighbors_chain]
  split_ifs <;> (try rfl) <;> (exfalso; omega)

lemma dihedInner2_chain (n k j : ℕ) (hk1 : 1 ≤ k) (hk : k < n - 1) (hj : j < n - 1) :
    dihedInner2 (chainBonds n) k (k - 1) j
      = if j = k + 1
        then [⟨(k : ℤ) - 1, (k : ℤ), (k : ℤ) + 1, (k : ℤ) + 2⟩] else [] := by
  rw [dihedInner2, chainBonds_getD n k hk, chainBonds_getD n j hj,
    chainBonds_getD n (k - 1) (by omega)]
  dsimp only
  split_ifs <;> (try (exfalso; omega)) <;> (try rfl) <;> (simp; omega)

lemma dihedMid_chain0 (n l : ℕ) (hl : l < n - 1) :
    dihedMid (chainBonds n) 0 l = [] := by
  rw [dihedMid, chainBonds_getD n 0 (by omega), chainBonds_getD n l hl]
  dsimp only
  split_ifs <;> (try rfl) <;> (exfalso; omega)

lemma dihedMid_chain_pos (n k l : ℕ) (hk1 : 1 ≤ k) (hk : k < n - 1) (hl : l < n - 1) :
    dihedMid (chainBonds n) k l
      = if l = k - 1
        then (List.range (n - 1)).flatMap (dihedInner2 (chainBonds n) k (k - 1))
        else [] := by
  rw [dihedMid, chainBonds_getD n k hk, chainBonds_getD n l hl, chainBonds_length]
  dsimp only
  by_cases hc4 : l = k - 1
  · subst hc4
    rw [if_neg (show ¬ k = k - 1 from by omega)]
    rw [if_neg (show ¬ ((k : ℕ) : ℤ) = (((k - 1 : ℕ) : ℕ) : ℤ) from by omega)]
    rw [if_pos (show ((k : ℕ) : ℤ) = (((k - 1 : ℕ) : ℕ) : ℤ) + 1 from by omega)]
    rw [if_pos rfl]
  · by_cases hc1 : k = l
    · rw [if_pos hc1, if_neg hc4]
    · rw [if_neg hc1]
      rw [if_neg (show ¬ ((k : ℕ) : ℤ) = ((l : ℕ) : ℤ) from by omega)]
      rw [if_neg (show ¬ ((k : ℕ) : ℤ) = ((l : ℕ) : ℤ) + 1 from by omega)]
      rw [if_neg hc4]

lemma dihedK_chain (n k : ℕ) (hk : k < n - 1) :
    dihedK (chainBonds n) k
      = if 1 ≤ k ∧ k + 1 < n - 1
        then [⟨(k : ℤ) - 1, (k : ℤ), (k : ℤ) + 1, (k : ℤ) + 2⟩] else [] := by
  rw [dihedK, chainBonds_length]
  by_cases hk1 : 1 ≤ k
  · have hinner : (List.range (n - 1)).flatMap (dihedInner2 (chainBonds n) k (k - 1))
        = if k + 1 < n - 1
          then [⟨(k : ℤ) - 1, (k : ℤ), (k : ℤ) + 1, (k : ℤ) + 2⟩] else [] :=
      flatMap_range_pad _ (n - 1) (k + 1) _
        (fun j hj => dihedInner2_chain n k j hk1 hk hj)
    rw [flatMap_range_pad
        (if k + 1 < n - 1
          then [(⟨(k : ℤ) - 1, (k : ℤ), (k : ℤ) + 1, (k : ℤ) + 2⟩ : MolDihed)] else [])
        (n - 1) (k - 1) (dihedMid (chainBonds n) k)
        (fun l hl => by rw [dihedMid_chain_pos n k l hk1 hk hl, hinner])]
    rw [if_pos (show k - 1 < n - 1 from by omega)]
    split_ifs <;> (try rfl) <;> (exfalso; omega)
  · have h0 : k = 0 := by omega
    subst h0
    rw [flatMap_range_nil (n - 1) _ (fun l hl => dihedMid_chain0 n l hl)]
    rw [if_neg (by omega)]

/-- Claim C6 (confirmed): a linear chain of `n ≥ 3` atoms with the
`n - 1` sequential bonds yields exactly `n - 2` angles and `n - 3`
dihedrals from `mol.anglesdiheds`. -/
theorem C6_chain_counts (n : ℕ) (h : 3 ≤ n) :
    (anglesFrom n (chainBonds n)).length = n - 2
    ∧ (dihedsFrom (chainBonds n)).length = n - 3 := by
  constructor
  · rw [anglesFrom]
    rw [flatMap_range_interval
        (fun i : ℕ => (⟨(i : ℤ) - 1, (i : ℤ), (i : ℤ) + 1⟩ : MolAngle)) n (n - 1) 1
        (anglesFor (chainBonds n)) (fun j hj => anglesFor_chain n j hj) (by omega)]
    rw [List.length_map, List.length_range]
    omega
  · rw [dihedsFrom, chainBonds_length]
    rw [flatMap_range_interval
        (fun k : ℕ => (⟨(k : ℤ) - 1, (k : ℤ), (k : ℤ) + 1, (k : ℤ) + 2⟩ : MolDihed))
        (n - 1) (n - 1 - 1) 1 (dihedK (chainBonds n))
        (fun k hk => by
          rw [dihedK_chain n k hk]
          split_ifs <;> (try rfl) <;> (exfalso; omega))
        (by omega)]
    rw [List.length_map, List.length_range]
    omega

/-- Claim C6, witness: a chain of 6 atoms yields 4 angles and 3
dihedrals. -/
theorem C6_chain_counts_w :
    (anglesFrom 6 (chainBonds 6)).length = 6 - 2
    ∧ (dihedsFrom (chainBonds 6)).length = 6 - 3 :=
  C6_chain_counts 6 (by decide)

end Fftool
